import Mathlib

/-!
Shallow embedding of the ETHEREUM-TICKER feed-synchronization layer.

The JavaScript hooks are embedded as pure Lean functions over explicit
state records:

* useBinancePrice.js      → BPState, bpFetchGecko, bpWsOpen, bpWsMessage,
                            bpWsClose, bpCleanup
* useCoinbasePrice.js     → CPState, cpWsClose (longterm variant)
* useBinanceOrderBook.js  → BOState, boConnect, boWsClose; binanceBookView
* useCoinbaseOrderBook.js → COState, coWsClose, coCleanup; Books, mapSet,
                            mapDelete, applyChange, applyMessage,
                            processOrderBook, spread

JavaScript numbers are modelled as rationals (ℚ); parseFloat on the wire
strings is the identity in this model.  JS Map objects (price → size) are
modelled as insertion-ordered association lists with unique keys.
-/

namespace EthTicker

/-- Connectivity status strings used by the hooks. -/
inductive Status where
  | connecting
  | connected
  | live
  | error
  | unavailable
  deriving DecidableEq, Repr

/-- The price snapshot held in useBinancePrice's setData state
(all fields null until the first update). -/
structure PriceData where
  price : Option ℚ
  priceChange : Option ℚ
  priceChangePercent : Option ℚ
  high24h : Option ℚ
  low24h : Option ℚ
  quoteVolume24h : Option ℚ
  prevPrice : Option ℚ
  deriving DecidableEq, Repr

/-- Fields of a Binance ticker push message used by ws.onmessage
(c = last price, p = price change, P = percent, h/l = high/low,
q = quote volume). -/
structure TickerPayload where
  c : ℚ
  p : ℚ
  P : ℚ
  h : ℚ
  l : ℚ
  q : ℚ
  deriving DecidableEq, Repr

/-- Fields of a successful CoinGecko market-summary poll used by
fetchFromCoinGecko. -/
structure GeckoMarket where
  currentPriceUsd : ℚ
  priceChange24h : ℚ
  priceChangePercentage24h : ℚ
  high24hUsd : ℚ
  low24hUsd : ℚ
  totalVolumeUsd : ℚ
  deriving DecidableEq, Repr

/-- The setData call in ws.onmessage of useBinancePrice.js (lines 86-97). -/
def applyTicker (t : TickerPayload) (prev : PriceData) : PriceData :=
  { price := some t.c
    priceChange := some t.p
    priceChangePercent := some t.P
    high24h := some t.h
    low24h := some t.l
    quoteVolume24h := some t.q
    prevPrice := prev.price }

/-- The setData call in fetchFromCoinGecko of useBinancePrice.js
(lines 43-51). -/
def applyGecko (m : GeckoMarket) (prev : PriceData) : PriceData :=
  { price := some m.currentPriceUsd
    priceChange := some m.priceChange24h
    priceChangePercent := some m.priceChangePercentage24h
    high24h := some m.high24hUsd
    low24h := some m.low24hUsd
    quoteVolume24h := some m.totalVolumeUsd
    prevPrice := prev.price }

/-- One inbound update on either channel of the price-feed controller. -/
inductive PriceMsg where
  | push (t : TickerPayload)
  | poll (m : GeckoMarket)
  deriving DecidableEq, Repr

/-- Apply one channel update to the snapshot (both handlers overwrite all
six numeric fields and set prevPrice to the pre-update price). -/
def applyMsg (d : PriceData) : PriceMsg → PriceData
  | .push t => applyTicker t d
  | .poll m => applyGecko m d

/-- Apply a serialized interleaving of channel updates, in arrival order. -/
def applyMsgs (d : PriceData) (ms : List PriceMsg) : PriceData :=
  ms.foldl applyMsg d

/-- The six numeric fields carried by a channel update. -/
def msgPrice : PriceMsg → ℚ
  | .push t => t.c
  | .poll m => m.currentPriceUsd

/-- The whole state of the useBinancePrice hook: snapshot, status, the
binanceWorking ref, the reconnect attempt counter, whether the socket is
open, whether the CoinGecko interval is armed, and a pending
setTimeout(connectBinance, delay) if any. -/
structure BPState where
  data : PriceData
  status : Status
  binanceWorking : Bool
  attempts : ℕ
  wsOpen : Bool
  pollArmed : Bool
  reconnectTimer : Option ℕ
  deriving DecidableEq, Repr

/-- Initial hook state after useEffect ran: data all null, status
connecting, poll interval armed, socket attempt issued. -/
def bpInit : BPState :=
  { data := ⟨none, none, none, none, none, none, none⟩
    status := .connecting
    binanceWorking := false
    attempts := 0
    wsOpen := false
    pollArmed := true
    reconnectTimer := none }

/-- fetchFromCoinGecko (useBinancePrice.js lines 32-64): on success apply
the market data and set status connected only when Binance is not working;
on failure leave the data untouched and set status error only when Binance
is not working.  The catch swallows the exception. -/
def bpFetchGecko (result : Option GeckoMarket) (s : BPState) : BPState :=
  match result with
  | some m =>
      { s with data := applyGecko m s.data
               status := if s.binanceWorking then s.status else .connected }
  | none =>
      { s with status := if s.binanceWorking then s.status else .error }

/-- ws.onopen of useBinancePrice.js: mark Binance working, status live,
reset the attempt counter. -/
def bpWsOpen (s : BPState) : BPState :=
  { s with binanceWorking := true, status := .live, attempts := 0,
           wsOpen := true }

/-- ws.onmessage of useBinancePrice.js: apply the ticker to the snapshot. -/
def bpWsMessage (t : TickerPayload) (s : BPState) : BPState :=
  { s with data := applyTicker t s.data }

/-- The capped delay used by useBinancePrice's close handler. -/
def binancePriceDelay (n : ℕ) : ℕ := min (1000 * 2 ^ n) 10000

/-- ws.onclose of useBinancePrice.js (lines 105-114): clear the working
flag; only when fewer than 3 attempts were made, schedule a reconnect with
delay min(1000·2^attempts, 10000) and increment the counter.  Otherwise
nothing further is scheduled. -/
def bpWsClose (s : BPState) : BPState :=
  if s.attempts < 3 then
    { s with binanceWorking := false, wsOpen := false,
             reconnectTimer := some (binancePriceDelay s.attempts),
             attempts := s.attempts + 1 }
  else
    { s with binanceWorking := false, wsOpen := false }

/-- A pending reconnect timer firing: the timer is consumed and
connectBinance runs (which touches none of the modelled fields until its
socket callbacks arrive). -/
def bpTimerFire (s : BPState) : BPState := { s with reconnectTimer := none }

/-- One failed connection round: the pending timer (if any) fires and the
resulting connection attempt ends in ws.onclose without ever opening. -/
def bpFailedRound (s : BPState) : BPState := bpWsClose (bpTimerFire s)

/-- The useEffect cleanup of useBinancePrice.js (lines 133-136): close the
socket and clear the CoinGecko interval.  A pending reconnect timer is not
cancelled and no liveness flag guards later callbacks. -/
def bpCleanup (s : BPState) : BPState :=
  { s with wsOpen := false, pollArmed := false }

/-- Connection state of the longterm useCoinbasePrice hook. -/
structure CPState where
  status : Status
  attempts : ℕ
  wsOpen : Bool
  reconnectTimer : Option ℕ
  deriving DecidableEq, Repr

/-- The capped exponential backoff delay used by both Coinbase hooks. -/
def coinbaseDelay (n : ℕ) : ℕ := min (1000 * 2 ^ n) 30000

/-- ws.onclose of useCoinbasePrice.js (lines 91-99): always schedule a
reconnect with delay min(1000·2^attempts, 30000), then increment the
counter; there is no attempt bound. -/
def cpWsClose (s : CPState) : CPState :=
  { s with status := .connecting
           reconnectTimer := some (coinbaseDelay s.attempts)
           attempts := s.attempts + 1
           wsOpen := false }

/-- Connection state of the useBinanceOrderBook hook. -/
structure BOState where
  status : Status
  attempts : ℕ
  wsOpen : Bool
  timeoutArmed : Bool
  reconnectTimer : Option ℕ
  deriving DecidableEq, Repr

/-- Initial useBinanceOrderBook state. -/
def boInit : BOState :=
  { status := .connecting, attempts := 0, wsOpen := false,
    timeoutArmed := false, reconnectTimer := none }

/-- The capped delay used by useBinanceOrderBook's close handler. -/
def binanceOBDelay (n : ℕ) : ℕ := min (1000 * 2 ^ n) 10000

/-- connect of useBinanceOrderBook.js (lines 21-37): refuse to try again
once 3 attempts failed (status unavailable, no socket); otherwise open a
socket and arm the 5s connection timeout. -/
def boConnect (s : BOState) : BOState :=
  if 3 ≤ s.attempts then { s with status := .unavailable }
  else { s with wsOpen := true, timeoutArmed := true }

/-- ws.onopen of useBinanceOrderBook.js: clear the timeout, status
connected, reset the counter. -/
def boWsOpen (s : BOState) : BOState :=
  { s with timeoutArmed := false, status := .connected, attempts := 0 }

/-- ws.onclose of useBinanceOrderBook.js (lines 96-106): increment the
counter first; if still below 3, schedule a reconnect with delay
min(1000·2^(new count), 10000); otherwise status unavailable and nothing
is scheduled. -/
def boWsClose (s : BOState) : BOState :=
  let a := s.attempts + 1
  if a < 3 then
    { s with attempts := a, status := .connecting,
             reconnectTimer := some (binanceOBDelay a) }
  else
    { s with attempts := a, status := .unavailable, wsOpen := false }

/-- A pending reconnect timer firing for the order-book hook. -/
def boTimerFire (s : BOState) : BOState := { s with reconnectTimer := none }

/-- One failed connection round of useBinanceOrderBook: timer fires,
connect runs, the attempt ends in ws.onclose without opening. -/
def boFailedRound (s : BOState) : BOState :=
  boWsClose (boConnect (boTimerFire s))

/-- Connection state of the useCoinbaseOrderBook hook. -/
structure COState where
  status : Status
  attempts : ℕ
  wsOpen : Bool
  reconnectTimer : Option ℕ
  deriving DecidableEq, Repr

/-- Initial useCoinbaseOrderBook connection state. -/
def coInit : COState :=
  { status := .connecting, attempts := 0, wsOpen := false,
    reconnectTimer := none }

/-- ws.onclose of useCoinbaseOrderBook.js (lines 141-148): always schedule
a reconnect with delay min(1000·2^attempts, 30000) and increment. -/
def coWsClose (s : COState) : COState :=
  { s with status := .connecting
           reconnectTimer := some (coinbaseDelay s.attempts)
           attempts := s.attempts + 1
           wsOpen := false }

/-- The useEffect cleanup of useCoinbaseOrderBook.js (lines 160-164): only
closes the socket; nothing cancels a pending reconnect timer. -/
def coCleanup (s : COState) : COState := { s with wsOpen := false }

/-! ## Order-book data model -/

/-- One displayed price level of the derived order-book view. -/
structure Level where
  price : ℚ
  quantity : ℚ
  total : ℚ
  cumulative : ℚ
  depthPercent : ℚ
  deriving DecidableEq, Repr

/-- The derived public order-book view. -/
structure OrderBookView where
  bids : List Level
  asks : List Level
  deriving DecidableEq, Repr

/-- The bid comparator (b, a) => b.price - a.price: highest price first. -/
def bidOrder (a b : ℚ × ℚ) : Prop := b.1 ≤ a.1

/-- The ask comparator (a, b) => a.price - b.price: lowest price first. -/
def askOrder (a b : ℚ × ℚ) : Prop := a.1 ≤ b.1

instance : DecidableRel bidOrder :=
  fun a b => inferInstanceAs (Decidable (b.1 ≤ a.1))

instance : DecidableRel askOrder :=
  fun a b => inferInstanceAs (Decidable (a.1 ≤ b.1))

instance : IsTotal (ℚ × ℚ) bidOrder := ⟨fun a b => le_total b.1 a.1⟩

instance : IsTrans (ℚ × ℚ) bidOrder := ⟨fun _ _ _ h1 h2 => le_trans h2 h1⟩

instance : IsTotal (ℚ × ℚ) askOrder := ⟨fun a b => le_total a.1 b.1⟩

instance : IsTrans (ℚ × ℚ) askOrder := ⟨fun _ _ _ h1 h2 => le_trans h1 h2⟩

/-- Bid half of processOrderBook (useCoinbaseOrderBook.js lines 28-32):
entries, filter quantity > 0, sort descending by price, slice to the
configured depth. -/
def projectBids (n : ℕ) (store : List (ℚ × ℚ)) : List (ℚ × ℚ) :=
  (List.insertionSort bidOrder (store.filter fun e => decide (0 < e.2))).take n

/-- Ask half of processOrderBook (useCoinbaseOrderBook.js lines 34-38). -/
def projectAsks (n : ℕ) (store : List (ℚ × ℚ)) : List (ℚ × ℚ) :=
  (List.insertionSort askOrder (store.filter fun e => decide (0 < e.2))).take n

/-- The cumulative quantity accumulated over one truncated side. -/
def sideTotal (l : List (ℚ × ℚ)) : ℚ := (l.map Prod.snd).sum

/-- The running-cumulative / total / depthPercent annotation pass of both
hooks: each level gets total = price·quantity, cumulative = running sum of
quantities, depthPercent = cumulative / divisor · 100. -/
def buildLevels (divisor : ℚ) : ℚ → List (ℚ × ℚ) → List Level
  | _, [] => []
  | acc, e :: rest =>
      { price := e.1, quantity := e.2, total := e.1 * e.2,
        cumulative := acc + e.2,
        depthPercent := (acc + e.2) / divisor * 100 }
        :: buildLevels divisor (acc + e.2) rest

/-- The JS expression x || 1 on a non-negative number: 1 exactly when x is
0, otherwise x itself. -/
def orFloorOne (x : ℚ) : ℚ := if x = 0 then 1 else x

/-- The maxCumulative divisor of useCoinbaseOrderBook.js line 62:
Math.max(bidCumulative, askCumulative) || 1. -/
def bookDivisor (n : ℕ) (bidStore askStore : List (ℚ × ℚ)) : ℚ :=
  orFloorOne (max (sideTotal (projectBids n bidStore))
                  (sideTotal (projectAsks n askStore)))

/-- processOrderBook of useCoinbaseOrderBook.js (lines 26-68): project and
sort both sides, annotate with totals, cumulative sums and depth
percentages against max(bidCumulative, askCumulative) || 1. -/
def processOrderBook (n : ℕ) (bidStore askStore : List (ℚ × ℚ)) :
    OrderBookView :=
  { bids := buildLevels (bookDivisor n bidStore askStore) 0
              (projectBids n bidStore)
    asks := buildLevels (bookDivisor n bidStore askStore) 0
              (projectAsks n askStore) }

/-- The maxCumulative divisor of useBinanceOrderBook.js line 74:
Math.max(bidCumulative, askCumulative) — with no floor. -/
def binanceDivisor (n : ℕ) (bids asks : List (ℚ × ℚ)) : ℚ :=
  max (sideTotal (bids.take n)) (sideTotal (asks.take n))

/-- ws.onmessage of useBinanceOrderBook.js (lines 45-85): slice each side
of the full-replacement message to the depth, annotate with totals,
cumulative sums and depth percentages against the unfloored divisor. -/
def binanceBookView (n : ℕ) (bids asks : List (ℚ × ℚ)) : OrderBookView :=
  { bids := buildLevels (binanceDivisor n bids asks) 0 (bids.take n)
    asks := buildLevels (binanceDivisor n bids asks) 0 (asks.take n) }

/-- JS Map.set on a price → size map: overwrite in place when the key
exists (insertion order kept), append otherwise. -/
def mapSet (m : List (ℚ × ℚ)) (p q : ℚ) : List (ℚ × ℚ) :=
  if p ∈ m.map Prod.fst then
    m.map (fun e => if e.1 = p then (p, q) else e)
  else m ++ [(p, q)]

/-- JS Map.delete on a price → size map. -/
def mapDelete (m : List (ℚ × ℚ)) (p : ℚ) : List (ℚ × ℚ) :=
  m.filter fun e => decide (e.1 ≠ p)

/-- JS Map.get on a price → size map. -/
def mapLookup (m : List (ℚ × ℚ)) (p : ℚ) : Option ℚ :=
  (m.find? fun e => decide (e.1 = p)).map Prod.snd

/-- The two side-stores of the incremental synchronizer (bidsMap and
asksMap refs of useCoinbaseOrderBook.js). -/
structure Books where
  bids : List (ℚ × ℚ)
  asks : List (ℚ × ℚ)
  deriving DecidableEq, Repr

/-- Both maps empty. -/
def emptyBooks : Books := ⟨[], []⟩

/-- The side tag of one l2update change. -/
inductive Side where
  | buy
  | sell
  deriving DecidableEq, Repr

/-- One [side, price, size] entry of an l2update message. -/
structure Change where
  side : Side
  price : ℚ
  size : ℚ
  deriving DecidableEq, Repr

/-- One change applied by ws.onmessage (useCoinbaseOrderBook.js lines
119-127): pick the side map, delete the price when the size is 0,
otherwise upsert it. -/
def applyChange (b : Books) (c : Change) : Books :=
  match c.side with
  | .buy =>
      if c.size = 0 then { b with bids := mapDelete b.bids c.price }
      else { b with bids := mapSet b.bids c.price c.size }
  | .sell =>
      if c.size = 0 then { b with asks := mapDelete b.asks c.price }
      else { b with asks := mapSet b.asks c.price c.size }

/-- An inbound Coinbase level2 message. -/
inductive OBMessage where
  | snapshot (bids asks : List (ℚ × ℚ))
  | l2update (changes : List Change)
  deriving DecidableEq, Repr

/-- Bulk-loading one side of a snapshot into a cleared map (forEach set). -/
def loadSide (entries : List (ℚ × ℚ)) : List (ℚ × ℚ) :=
  entries.foldl (fun m e => mapSet m e.1 e.2) []

/-- ws.onmessage of useCoinbaseOrderBook.js (lines 95-134): a snapshot
clears and bulk-loads both maps; an l2update applies its changes in
order. -/
def applyMessage (b : Books) : OBMessage → Books
  | .snapshot bids asks => { bids := loadSide bids, asks := loadSide asks }
  | .l2update cs => cs.foldl applyChange b

/-- Apply a sequence of messages in arrival order. -/
def runMessages (b : Books) (ms : List OBMessage) : Books :=
  ms.foldl applyMessage b

/-- The derived view recomputed after every applied message. -/
def coinbaseBookView (n : ℕ) (b : Books) : OrderBookView :=
  processOrderBook n b.bids b.asks

/-- The spread object derived from the best entries of both sides. -/
structure SpreadInfo where
  value : ℚ
  percent : ℚ
  deriving DecidableEq, Repr

/-- The spread computation of both hooks (useCoinbaseOrderBook.js lines
167-173): defined only when both truncated sides are non-empty. -/
def spread (v : OrderBookView) : Option SpreadInfo :=
  match v.bids, v.asks with
  | b :: _, a :: _ =>
      some { value := a.price - b.price
             percent := (a.price - b.price) / a.price * 100 }
  | _, _ => none

/-- Uniqueness of the keys of a side-store (a JS Map cannot hold two
entries with the same key). -/
def NodupKeys (m : List (ℚ × ℚ)) : Prop := (m.map Prod.fst).Nodup

/-- The six numeric snapshot fields, in declaration order. -/
def numericsOf (d : PriceData) : List (Option ℚ) :=
  [d.price, d.priceChange, d.priceChangePercent, d.high24h, d.low24h,
   d.quoteVolume24h]

/-- The six numeric fields carried by one channel update. -/
def msgNumerics : PriceMsg → List (Option ℚ)
  | .push t => [some t.c, some t.p, some t.P, some t.h, some t.l, some t.q]
  | .poll m => [some m.currentPriceUsd, some m.priceChange24h,
                some m.priceChangePercentage24h, some m.high24hUsd,
                some m.low24hUsd, some m.totalVolumeUsd]

/-- Both side-stores of a Books value have JS-Map key uniqueness. -/
def BooksND (b : Books) : Prop := NodupKeys b.bids ∧ NodupKeys b.asks

/-- The invariants of the derived public view claimed for every
observation point: bids strictly descending by price, asks strictly
ascending, only positive quantities, at most n levels per side. -/
def ViewInvariant (n : ℕ) (v : OrderBookView) : Prop :=
  (v.bids.Pairwise fun x y => y.price < x.price)
  ∧ (v.asks.Pairwise fun x y => x.price < y.price)
  ∧ (∀ lv ∈ v.bids, 0 < lv.quantity)
  ∧ (∀ lv ∈ v.asks, 0 < lv.quantity)
  ∧ v.bids.length ≤ n ∧ v.asks.length ≤ n

/-- Validity of a full-replacement provider message: the top-of-book
depth snapshot arrives sorted (bids descending, asks ascending) and
carries only resting levels (quantity > 0), which is what the depth
stream contractually sends; the full-replacement code path re-sorts and
re-filters nothing. -/
def ValidFullBook (bids asks : List (ℚ × ℚ)) : Prop :=
  (bids.Pairwise fun a b => b.1 < a.1)
  ∧ (asks.Pairwise fun a b => a.1 < b.1)
  ∧ (∀ e ∈ bids, 0 < e.2) ∧ (∀ e ∈ asks, 0 < e.2)

/-- The snapshot of the spec's worked scenario:
bids [[100,2],[99,3]], asks [[101,1],[102,4]]. -/
def scenarioSnapshot : OBMessage :=
  .snapshot [(100, 2), (99, 3)] [(101, 1), (102, 4)]

/-! ## Price-feed theorems -/

/-- Claim C3: both channels overwrite the same six numeric snapshot
fields unconditionally, so after any serialized interleaving the numeric
fields are exactly those of the update applied last; in particular a push
with price 1800 followed by a staler poll with price 1795 leaves the
snapshot price at 1795. -/
theorem price_merge_last_write_wins (d : PriceData) (ms : List PriceMsg)
    (msg : PriceMsg) :
    numericsOf (applyMsgs d (ms ++ [msg])) = msgNumerics msg
  ∧ (applyMsgs d [.push ⟨1800, 20, 1, 1820, 1750, 600000⟩,
                  .poll ⟨1795, 18, 1, 1815, 1748, 590000⟩]).price
      = some 1795 := by
  constructor
  · rw [applyMsgs, List.foldl_append]
    cases msg <;> rfl
  · rfl

/-- Claim C4 counterexample: the very first reconnect delay scheduled by
useBinanceOrderBook is 2000 ms (the counter is incremented before the
delay is computed, and the cap is 10000), not
min(baseDelayMs·2^0, capDelayMs) = 1000 ms. -/
theorem first_binance_orderbook_delay_not_1000 :
    (boWsClose boInit).reconnectTimer = some 2000
  ∧ (2000 : ℕ) ≠ min (1000 * 2 ^ 0) 30000
  ∧ (2000 : ℕ) ≠ min (1000 * 2 ^ 0) 10000 :=
  ⟨rfl, by decide, by decide⟩

/-- Claim C4 (amended): both Coinbase hooks schedule
min(1000·2^n, 30000) after the n-th consecutive failure, yielding 1000,
2000, 4000, 8000, 16000, 30000, 30000, … and never exceeding 30000; the
Binance price hook uses min(1000·2^n, 10000); the Binance order-book hook
increments first, scheduling min(1000·2^(n+1), 10000) after the n-th
failure. -/
theorem backoff_delay_schedule (s1 : CPState) (s2 : COState) (s3 : BOState)
    (s4 : BPState) (n : ℕ) (h3 : s3.attempts + 1 < 3) (h4 : s4.attempts < 3) :
    (cpWsClose s1).reconnectTimer = some (min (1000 * 2 ^ s1.attempts) 30000)
  ∧ (coWsClose s2).reconnectTimer = some (min (1000 * 2 ^ s2.attempts) 30000)
  ∧ (List.range 7).map coinbaseDelay
      = [1000, 2000, 4000, 8000, 16000, 30000, 30000]
  ∧ coinbaseDelay n ≤ 30000
  ∧ (boWsClose s3).reconnectTimer
      = some (min (1000 * 2 ^ (s3.attempts + 1)) 10000)
  ∧ (bpWsClose s4).reconnectTimer
      = some (min (1000 * 2 ^ s4.attempts) 10000) := by
  refine ⟨rfl, rfl, by rfl, Nat.min_le_right _ _, ?_, ?_⟩
  · simp [boWsClose, binanceOBDelay, if_pos h3]
  · simp [bpWsClose, binancePriceDelay, if_pos h4]

/-- Witness for backoff_delay_schedule at concrete states. -/
theorem backoff_delay_schedule_witness :
    (cpWsClose ⟨.connecting, 0, false, none⟩).reconnectTimer
      = some (min (1000 * 2 ^ 0) 30000)
  ∧ (coWsClose coInit).reconnectTimer = some (min (1000 * 2 ^ 0) 30000)
  ∧ (List.range 7).map coinbaseDelay
      = [1000, 2000, 4000, 8000, 16000, 30000, 30000]
  ∧ coinbaseDelay 9 ≤ 30000
  ∧ (boWsClose boInit).reconnectTimer = some (min (1000 * 2 ^ (0 + 1)) 10000)
  ∧ (bpWsClose bpInit).reconnectTimer = some (min (1000 * 2 ^ 0) 10000) :=
  backoff_delay_schedule ⟨.connecting, 0, false, none⟩ coInit boInit bpInit 9
    (by decide) (by decide)

/-- Claim C5: after 3 consecutive failed connection rounds the Binance
order-book hook is unavailable with no reconnect timer armed; once the
counter has reached 3, connect refuses to open a socket (only setting
status unavailable) and a close schedules nothing further, so the state
is terminal until the consumer restarts the hook. -/
theorem orderbook_unavailable_terminal (s : BOState) (h : 3 ≤ s.attempts) :
    (boFailedRound (boFailedRound (boFailedRound boInit))).status
      = .unavailable
  ∧ (boFailedRound (boFailedRound (boFailedRound boInit))).reconnectTimer
      = none
  ∧ boConnect s = { s with status := .unavailable }
  ∧ (boWsClose s).reconnectTimer = s.reconnectTimer
  ∧ (boWsClose s).status = .unavailable := by
  have hn : ¬ (s.attempts + 1 < 3) := by omega
  refine ⟨rfl, rfl, ?_, ?_, ?_⟩
  · simp [boConnect, if_pos h]
  · simp [boWsClose, if_neg hn]
  · simp [boWsClose, if_neg hn]

/-- Witness for orderbook_unavailable_terminal at the state reached by
three failed rounds. -/
theorem orderbook_unavailable_terminal_witness :
    (boFailedRound (boFailedRound (boFailedRound boInit))).status
      = .unavailable
  ∧ (boFailedRound (boFailedRound (boFailedRound boInit))).reconnectTimer
      = none
  ∧ boConnect ⟨.unavailable, 3, false, true, none⟩
      = { status := .unavailable, attempts := 3, wsOpen := false,
          timeoutArmed := true, reconnectTimer := none }
  ∧ (boWsClose ⟨.unavailable, 3, false, true, none⟩).reconnectTimer = none
  ∧ (boWsClose ⟨.unavailable, 3, false, true, none⟩).status = .unavailable :=
  orderbook_unavailable_terminal ⟨.unavailable, 3, false, true, none⟩
    (by decide)

/-- Claim C6 counterexample: the dual-source price controller
(useBinancePrice) does reach a terminal no-retry state: after four failed
rounds no reconnect is scheduled and the attempt counter stays at 3. -/
theorem price_primary_gives_up :
    (bpFailedRound (bpFailedRound (bpFailedRound (bpFailedRound bpInit)))).reconnectTimer
      = none
  ∧ (bpFailedRound (bpFailedRound (bpFailedRound (bpFailedRound bpInit)))).attempts
      = 3 :=
  ⟨rfl, rfl⟩

/-- Claim C6 (amended): the dual-source controller retries its primary at
most 3 times — once the counter reaches 3 a close schedules nothing and
leaves the counter alone — while primary failures never touch the poll
interval; the single-source useCoinbasePrice hook does schedule a
reconnect after every close, unboundedly. -/
theorem price_primary_bounded_retries (s : BPState) (s1 : CPState)
    (h : 3 ≤ s.attempts) :
    (bpWsClose s).reconnectTimer = s.reconnectTimer
  ∧ (bpWsClose s).attempts = s.attempts
  ∧ (∀ s2 : BPState, (bpWsClose s2).pollArmed = s2.pollArmed)
  ∧ (cpWsClose s1).reconnectTimer = some (coinbaseDelay s1.attempts) := by
  have hn : ¬ (s.attempts < 3) := by omega
  refine ⟨?_, ?_, ?_, rfl⟩
  · simp [bpWsClose, if_neg hn]
  · simp [bpWsClose, if_neg hn]
  · intro s2
    unfold bpWsClose
    by_cases h2 : s2.attempts < 3 <;> simp [h2]

/-- Witness for price_primary_bounded_retries at concrete states. -/
theorem price_primary_bounded_retries_witness :
    (bpWsClose { bpInit with attempts := 3 }).reconnectTimer
      = { bpInit with attempts := 3 }.reconnectTimer
  ∧ (bpWsClose { bpInit with attempts := 3 }).attempts
      = { bpInit with attempts := 3 }.attempts
  ∧ (∀ s2 : BPState, (bpWsClose s2).pollArmed = s2.pollArmed)
  ∧ (cpWsClose ⟨.connecting, 4, false, none⟩).reconnectTimer
      = some (coinbaseDelay 4) :=
  price_primary_bounded_retries { bpInit with attempts := 3 }
    ⟨.connecting, 4, false, none⟩ (by decide)

/-- Claim C9 is violated by the code: neither cleanup path cancels a
pending reconnect timer, and an in-flight CoinGecko response arriving
after teardown still overwrites the snapshot.  Evaluated at a state torn
down while a 1000 ms reconnect timer is armed. -/
theorem teardown_leaves_reconnect_armed :
    (bpCleanup { bpInit with reconnectTimer := some 1000 }).reconnectTimer
      = some 1000
  ∧ (coCleanup { coInit with reconnectTimer := some 1000 }).reconnectTimer
      = some 1000
  ∧ (bpFetchGecko (some ⟨1795, 18, 1, 1815, 1748, 590000⟩)
        (bpCleanup bpInit)).data ≠ (bpCleanup bpInit).data := by
  refine ⟨rfl, rfl, ?_⟩
  intro hcontra
  exact Option.noConfusion (congrArg PriceData.price hcontra)

/-- Claim C10: a failed poll leaves the whole snapshot untouched (every
numeric field and prevPrice keep their last successful values), keeps the
poll loop armed, and sets status to error exactly when the primary is not
currently working, leaving it unchanged otherwise. -/
theorem poll_failure_swallowed (s : BPState) :
    (bpFetchGecko none s).data = s.data
  ∧ (bpFetchGecko none s).status
      = (if s.binanceWorking then s.status else .error)
  ∧ (bpFetchGecko none s).pollArmed = s.pollArmed :=
  ⟨rfl, rfl, rfl⟩

/-! ## Order-book lemmas -/

theorem buildLevels_map_pq (d acc : ℚ) (l : List (ℚ × ℚ)) :
    (buildLevels d acc l).map (fun lv => (lv.price, lv.quantity)) = l := by
  induction l generalizing acc with
  | nil => rfl
  | cons e rest ih => simp [buildLevels, ih]

theorem length_buildLevels (d acc : ℚ) (l : List (ℚ × ℚ)) :
    (buildLevels d acc l).length = l.length := by
  have h := congrArg List.length (buildLevels_map_pq d acc l)
  simpa using h

theorem mem_buildLevels {d acc : ℚ} {l : List (ℚ × ℚ)} {lv : Level}
    (h : lv ∈ buildLevels d acc l) : (lv.price, lv.quantity) ∈ l := by
  have h2 := List.mem_map_of_mem (fun lv : Level => (lv.price, lv.quantity)) h
  rwa [buildLevels_map_pq] at h2

theorem buildLevels_pairwise {R : ℚ → ℚ → Prop} {d : ℚ}
    {l : List (ℚ × ℚ)} :
    ∀ {acc : ℚ}, (l.Pairwise fun a b => R a.1 b.1) →
      (buildLevels d acc l).Pairwise fun x y => R x.price y.price := by
  induction l with
  | nil => intro acc _; exact List.Pairwise.nil
  | cons e rest ih =>
      intro acc h
      rcases List.pairwise_cons.mp h with ⟨hhead, htail⟩
      refine List.Pairwise.cons ?_ (ih htail)
      intro y hy
      exact hhead _ (mem_buildLevels hy)

theorem buildLevels_depthPercent {d acc : ℚ} {l : List (ℚ × ℚ)} :
    ∀ lv ∈ buildLevels d acc l,
      lv.depthPercent = lv.cumulative / d * 100 := by
  induction l generalizing acc with
  | nil => intro lv h; cases h
  | cons e rest ih =>
      intro lv h
      rcases List.mem_cons.mp h with rfl | h2
      · rfl
      · exact ih _ h2

theorem sideTotal_nonneg {l : List (ℚ × ℚ)} (hq : ∀ e ∈ l, 0 ≤ e.2) :
    0 ≤ sideTotal l := by
  apply List.sum_nonneg
  intro a ha
  rcases List.mem_map.mp ha with ⟨e, he, rfl⟩
  exact hq e he

theorem sideTotal_pos {l : List (ℚ × ℚ)} (hq : ∀ e ∈ l, 0 < e.2)
    (hne : l ≠ []) : 0 < sideTotal l := by
  apply List.sum_pos
  · intro a ha
    rcases List.mem_map.mp ha with ⟨e, he, rfl⟩
    exact hq e he
  · simpa using hne

theorem le_buildLevels_cumulative {d acc : ℚ} {l : List (ℚ × ℚ)}
    (hq : ∀ e ∈ l, 0 ≤ e.2) :
    ∀ lv ∈ buildLevels d acc l, acc ≤ lv.cumulative := by
  induction l generalizing acc with
  | nil => intro lv h; cases h
  | cons e rest ih =>
      intro lv h
      have he : 0 ≤ e.2 := hq e (List.mem_cons_self e rest)
      rcases List.mem_cons.mp h with rfl | h2
      · show acc ≤ acc + e.2
        linarith
      · have h3 := ih (fun x hx => hq x (List.mem_cons_of_mem _ hx)) lv h2
        linarith

theorem buildLevels_cumulative_le {d acc : ℚ} {l : List (ℚ × ℚ)}
    (hq : ∀ e ∈ l, 0 ≤ e.2) :
    ∀ lv ∈ buildLevels d acc l, lv.cumulative ≤ acc + sideTotal l := by
  induction l generalizing acc with
  | nil => intro lv h; cases h
  | cons e rest ih =>
      intro lv h
      have hrest : ∀ x ∈ rest, 0 ≤ x.2 :=
        fun x hx => hq x (List.mem_cons_of_mem _ hx)
      have hr0 : 0 ≤ sideTotal rest := sideTotal_nonneg hrest
      have hst : sideTotal (e :: rest) = e.2 + sideTotal rest := by
        simp [sideTotal]
      rcases List.mem_cons.mp h with rfl | h2
      · show acc + e.2 ≤ acc + sideTotal (e :: rest)
        rw [hst]; linarith
      · have h3 := ih hrest lv h2
        rw [hst]; linarith

theorem buildLevels_getLast {d : ℚ} {l : List (ℚ × ℚ)} :
    ∀ {acc : ℚ} {lv : Level}, (buildLevels d acc l).getLast? = some lv →
      lv.cumulative = acc + sideTotal l
      ∧ lv.depthPercent = (acc + sideTotal l) / d * 100 := by
  induction l with
  | nil => intro acc lv h; simp [buildLevels] at h
  | cons e rest ih =>
      intro acc lv h
      cases rest with
      | nil =>
          simp only [buildLevels, List.getLast?_singleton,
            Option.some.injEq] at h
          rw [← h]
          constructor <;> simp [sideTotal]
      | cons f rest2 =>
          have hstep : (buildLevels d acc (e :: f :: rest2)).getLast?
              = (buildLevels d (acc + e.2) (f :: rest2)).getLast? := by
            simp only [buildLevels, List.getLast?_cons_cons]
          rw [hstep] at h
          obtain ⟨h2, h3⟩ := ih h
          have hst : sideTotal (e :: f :: rest2)
              = e.2 + sideTotal (f :: rest2) := by simp [sideTotal]
          rw [hst]
          constructor
          · linarith
          · rw [h3]
            ring_nf

theorem mem_projectBids {n : ℕ} {store : List (ℚ × ℚ)} {e : ℚ × ℚ}
    (h : e ∈ projectBids n store) : e ∈ store ∧ 0 < e.2 := by
  unfold projectBids at h
  have h1 := List.take_subset _ _ h
  have h2 := (List.perm_insertionSort bidOrder _).subset h1
  refine ⟨(List.filter_sublist _).subset h2, ?_⟩
  exact of_decide_eq_true (List.mem_filter.mp h2).2

theorem mem_projectAsks {n : ℕ} {store : List (ℚ × ℚ)} {e : ℚ × ℚ}
    (h : e ∈ projectAsks n store) : e ∈ store ∧ 0 < e.2 := by
  unfold projectAsks at h
  have h1 := List.take_subset _ _ h
  have h2 := (List.perm_insertionSort askOrder _).subset h1
  refine ⟨(List.filter_sublist _).subset h2, ?_⟩
  exact of_decide_eq_true (List.mem_filter.mp h2).2

theorem nodupKeys_filter (f : ℚ × ℚ → Bool) {m : List (ℚ × ℚ)}
    (h : NodupKeys m) : NodupKeys (m.filter f) :=
  List.Nodup.sublist (List.Sublist.map Prod.fst (List.filter_sublist m)) h

theorem projectBids_sorted {n : ℕ} {store : List (ℚ × ℚ)}
    (hnd : NodupKeys store) :
    (projectBids n store).Pairwise fun a b => b.1 < a.1 := by
  unfold projectBids
  apply List.Pairwise.sublist (List.take_sublist _ _)
  have hsorted : List.Pairwise bidOrder
      (List.insertionSort bidOrder
        (store.filter fun e => decide (0 < e.2))) :=
    List.sorted_insertionSort bidOrder _
  have hnd2 : NodupKeys (store.filter fun e => decide (0 < e.2)) :=
    nodupKeys_filter _ hnd
  have hnd3 : NodupKeys (List.insertionSort bidOrder
      (store.filter fun e => decide (0 < e.2))) :=
    (((List.perm_insertionSort bidOrder _).map Prod.fst).nodup_iff).mpr hnd2
  have hne : (List.insertionSort bidOrder
      (store.filter fun e => decide (0 < e.2))).Pairwise
      fun a b => a.1 ≠ b.1 := by
    have h4 : ((List.insertionSort bidOrder
        (store.filter fun e => decide (0 < e.2))).map Prod.fst).Pairwise
        (fun a b => a ≠ b) := hnd3
    induction' hp : List.insertionSort bidOrder
        (store.filter fun e => decide (0 < e.2)) with x xs
    · exact List.Pairwise.nil
    · rw [hp] at h4
      exact List.pairwise_map.mp h4
  exact (hsorted.and hne).imp fun h => lt_of_le_of_ne h.1 (Ne.symm h.2)

theorem projectAsks_sorted {n : ℕ} {store : List (ℚ × ℚ)}
    (hnd : NodupKeys store) :
    (projectAsks n store).Pairwise fun a b => a.1 < b.1 := by
  unfold projectAsks
  apply List.Pairwise.sublist (List.take_sublist _ _)
  have hsorted : List.Pairwise askOrder
      (List.insertionSort askOrder
        (store.filter fun e => decide (0 < e.2))) :=
    List.sorted_insertionSort askOrder _
  have hnd2 : NodupKeys (store.filter fun e => decide (0 < e.2)) :=
    nodupKeys_filter _ hnd
  have hnd3 : NodupKeys (List.insertionSort askOrder
      (store.filter fun e => decide (0 < e.2))) :=
    (((List.perm_insertionSort askOrder _).map Prod.fst).nodup_iff).mpr hnd2
  have hne : (List.insertionSort askOrder
      (store.filter fun e => decide (0 < e.2))).Pairwise
      fun a b => a.1 ≠ b.1 := by
    have h4 : ((List.insertionSort askOrder
        (store.filter fun e => decide (0 < e.2))).map Prod.fst).Pairwise
        (fun a b => a ≠ b) := hnd3
    exact List.pairwise_map.mp h4
  exact (hsorted.and hne).imp fun h => lt_of_le_of_ne h.1 h.2

theorem length_projectBids_le (n : ℕ) (store : List (ℚ × ℚ)) :
    (projectBids n store).length ≤ n :=
  List.length_take_le n _

theorem length_projectAsks_le (n : ℕ) (store : List (ℚ × ℚ)) :
    (projectAsks n store).length ≤ n :=
  List.length_take_le n _

theorem nodupKeys_mapSet {m : List (ℚ × ℚ)} (p q : ℚ) (h : NodupKeys m) :
    NodupKeys (mapSet m p q) := by
  unfold mapSet
  by_cases hp : p ∈ m.map Prod.fst
  · rw [if_pos hp]
    unfold NodupKeys at h ⊢
    have hkeys : (m.map fun e => if e.1 = p then (p, q) else e).map Prod.fst
        = m.map Prod.fst := by
      rw [List.map_map]
      apply List.map_congr_left
      intro e _
      by_cases h1 : e.1 = p
      · simp [h1]
      · simp [h1]
    rw [hkeys]
    exact h
  · rw [if_neg hp]
    unfold NodupKeys at h ⊢
    rw [List.map_append]
    simp only [List.map_cons, List.map_nil]
    rw [List.nodup_append]
    exact ⟨h, List.nodup_singleton p, by simpa [List.disjoint_singleton] using hp⟩

theorem nodupKeys_mapDelete {m : List (ℚ × ℚ)} (p : ℚ) (h : NodupKeys m) :
    NodupKeys (mapDelete m p) :=
  nodupKeys_filter _ h

theorem nodupKeys_loadSide (entries : List (ℚ × ℚ)) :
    NodupKeys (loadSide entries) := by
  unfold loadSide
  have hgen : ∀ m : List (ℚ × ℚ), NodupKeys m →
      NodupKeys (entries.foldl (fun m e => mapSet m e.1 e.2) m) := by
    induction entries with
    | nil => intro m hm; exact hm
    | cons e rest ih => intro m hm; exact ih _ (nodupKeys_mapSet _ _ hm)
  exact hgen [] (by simp [NodupKeys])

theorem booksND_empty : BooksND emptyBooks :=
  ⟨by simp [NodupKeys, emptyBooks], by simp [NodupKeys, emptyBooks]⟩

theorem booksND_applyChange {b : Books} (c : Change) (h : BooksND b) :
    BooksND (applyChange b c) := by
  obtain ⟨side, p, q⟩ := c
  obtain ⟨hb, ha⟩ := h
  cases side with
  | buy =>
      by_cases hq : q = 0
      · simpa [applyChange, hq] using
          And.intro (nodupKeys_mapDelete p hb) ha
      · simpa [applyChange, hq] using
          And.intro (nodupKeys_mapSet p q hb) ha
  | sell =>
      by_cases hq : q = 0
      · simpa [applyChange, hq] using
          And.intro hb (nodupKeys_mapDelete p ha)
      · simpa [applyChange, hq] using
          And.intro hb (nodupKeys_mapSet p q ha)

theorem booksND_foldlChanges (cs : List Change) :
    ∀ {b : Books}, BooksND b → BooksND (cs.foldl applyChange b) := by
  induction cs with
  | nil => intro b h; exact h
  | cons c rest ih => intro b h; exact ih (booksND_applyChange c h)

theorem booksND_applyMessage {b : Books} (msg : OBMessage) (h : BooksND b) :
    BooksND (applyMessage b msg) := by
  cases msg with
  | snapshot bids asks =>
      exact ⟨nodupKeys_loadSide bids, nodupKeys_loadSide asks⟩
  | l2update cs => exact booksND_foldlChanges cs h

theorem booksND_runMessages (ms : List OBMessage) :
    ∀ {b : Books}, BooksND b → BooksND (runMessages b ms) := by
  induction ms with
  | nil => intro b h; exact h
  | cons msg rest ih => intro b h; exact ih (booksND_applyMessage msg h)

theorem viewInvariant_processOrderBook (n : ℕ) {bs aks : List (ℚ × ℚ)}
    (hb : NodupKeys bs) (ha : NodupKeys aks) :
    ViewInvariant n (processOrderBook n bs aks) := by
  refine ⟨?_, ?_, ?_, ?_, ?_, ?_⟩
  · exact @buildLevels_pairwise (fun x y => y < x) _ _ _ (projectBids_sorted hb)
  · exact @buildLevels_pairwise (fun x y => x < y) _ _ _ (projectAsks_sorted ha)
  · intro lv hlv
    exact (mem_projectBids (mem_buildLevels hlv)).2
  · intro lv hlv
    exact (mem_projectAsks (mem_buildLevels hlv)).2
  · show (buildLevels _ 0 (projectBids n bs)).length ≤ n
    rw [length_buildLevels]
    exact length_projectBids_le n bs
  · show (buildLevels _ 0 (projectAsks n aks)).length ≤ n
    rw [length_buildLevels]
    exact length_projectAsks_le n aks

theorem viewInvariant_binance (n : ℕ) {bids asks : List (ℚ × ℚ)}
    (h : ValidFullBook bids asks) :
    ViewInvariant n (binanceBookView n bids asks) := by
  obtain ⟨hb, ha, hbq, haq⟩ := h
  refine ⟨?_, ?_, ?_, ?_, ?_, ?_⟩
  · exact @buildLevels_pairwise (fun x y => y < x) _ _ _
      (List.Pairwise.sublist (List.take_sublist _ _) hb)
  · exact @buildLevels_pairwise (fun x y => x < y) _ _ _
      (List.Pairwise.sublist (List.take_sublist _ _) ha)
  · intro lv hlv
    exact hbq _ (List.take_subset _ _ (mem_buildLevels hlv))
  · intro lv hlv
    exact haq _ (List.take_subset _ _ (mem_buildLevels hlv))
  · show (buildLevels _ 0 (bids.take n)).length ≤ n
    rw [length_buildLevels]
    exact List.length_take_le n _
  · show (buildLevels _ 0 (asks.take n)).length ≤ n
    rw [length_buildLevels]
    exact List.length_take_le n _

/-- Claim C1: starting from empty stores, after any prefix of any valid
message sequence (snapshot and incremental delta messages in the
incremental model) the Coinbase-derived view has strictly descending
bids, strictly ascending asks, only positive quantities and at most n
levels per side; and in the full-replacement model every valid provider
message yields a view with the same invariants. -/
theorem order_book_view_invariants (n k : ℕ) (msgs : List OBMessage)
    (fbBids fbAsks : List (ℚ × ℚ)) (hv : ValidFullBook fbBids fbAsks) :
    ViewInvariant n (coinbaseBookView n (runMessages emptyBooks (msgs.take k)))
  ∧ ViewInvariant n (binanceBookView n fbBids fbAsks) := by
  constructor
  · have h := booksND_runMessages (msgs.take k) booksND_empty
    exact viewInvariant_processOrderBook n h.1 h.2
  · exact viewInvariant_binance n hv

/-- Witness for order_book_view_invariants: a concrete message sequence
(the spec scenario snapshot followed by a best-bid deletion) and a
concrete valid full-replacement message. -/
theorem order_book_view_invariants_witness :
    ValidFullBook [(101, 2), (100, 1)] [(102, 1), (103, 5)]
  ∧ (ViewInvariant 10 (coinbaseBookView 10 (runMessages emptyBooks
        ([scenarioSnapshot, .l2update [⟨.buy, 100, 0⟩]].take 2)))
  ∧ ViewInvariant 10 (binanceBookView 10 [(101, 2), (100, 1)]
        [(102, 1), (103, 5)])) :=
  ⟨by constructor
      · decide
      · refine ⟨by decide, by decide, by decide⟩,
   order_book_view_invariants 10 2 [scenarioSnapshot, .l2update [⟨.buy, 100, 0⟩]]
     [(101, 2), (100, 1)] [(102, 1), (103, 5)]
     (by constructor
         · decide
         · refine ⟨by decide, by decide, by decide⟩)⟩

theorem orFloorOne_pos {x : ℚ} (hx : 0 ≤ x) : 0 < orFloorOne x := by
  unfold orFloorOne
  by_cases h : x = 0
  · rw [if_pos h]; norm_num
  · rw [if_neg h]; exact lt_of_le_of_ne hx (Ne.symm h)

theorem le_orFloorOne {x y : ℚ} (hy : 0 ≤ y) (hxy : x ≤ y) :
    x ≤ orFloorOne y := by
  unfold orFloorOne
  by_cases h : y = 0
  · rw [if_pos h]; linarith
  · rw [if_neg h]; exact hxy

theorem orFloorOne_eq {x : ℚ} (h : x ≠ 0) : orFloorOne x = x := if_neg h

theorem bidTotal_nonneg (n : ℕ) (bs : List (ℚ × ℚ)) :
    0 ≤ sideTotal (projectBids n bs) :=
  sideTotal_nonneg fun e he => le_of_lt (mem_projectBids he).2

theorem askTotal_nonneg (n : ℕ) (aks : List (ℚ × ℚ)) :
    0 ≤ sideTotal (projectAsks n aks) :=
  sideTotal_nonneg fun e he => le_of_lt (mem_projectAsks he).2

theorem bookDivisor_pos (n : ℕ) (bs aks : List (ℚ × ℚ)) :
    0 < bookDivisor n bs aks :=
  orFloorOne_pos (le_trans (bidTotal_nonneg n bs) (le_max_left _ _))

theorem bidTotal_le_bookDivisor (n : ℕ) (bs aks : List (ℚ × ℚ)) :
    sideTotal (projectBids n bs) ≤ bookDivisor n bs aks :=
  le_orFloorOne (le_trans (bidTotal_nonneg n bs) (le_max_left _ _))
    (le_max_left _ _)

theorem askTotal_le_bookDivisor (n : ℕ) (bs aks : List (ℚ × ℚ)) :
    sideTotal (projectAsks n aks) ≤ bookDivisor n bs aks :=
  le_orFloorOne (le_trans (bidTotal_nonneg n bs) (le_max_left _ _))
    (le_max_right _ _)

/-- Claim C2 (amended): in the Coinbase view each level's depthPercent is
cumulative / D · 100 where D is max(bidTotal, askTotal) floored to 1 only
when it is exactly 0 (the JS expression max(b, a) || 1), not the
three-way max(bidTotal, askTotal, 1); every such depthPercent lies in
[0, 100], and the last displayed level of a side whose cumulative total
is at least the other side's equals exactly 100. -/
theorem depth_percent_formula_and_bounds (n : ℕ) (bs aks : List (ℚ × ℚ)) :
    (∀ lv ∈ (processOrderBook n bs aks).bids,
        lv.depthPercent = lv.cumulative / bookDivisor n bs aks * 100
      ∧ 0 ≤ lv.depthPercent ∧ lv.depthPercent ≤ 100)
  ∧ (∀ lv ∈ (processOrderBook n bs aks).asks,
        lv.depthPercent = lv.cumulative / bookDivisor n bs aks * 100
      ∧ 0 ≤ lv.depthPercent ∧ lv.depthPercent ≤ 100)
  ∧ (sideTotal (projectAsks n aks) ≤ sideTotal (projectBids n bs) →
      ∀ lv, (processOrderBook n bs aks).bids.getLast? = some lv →
        lv.depthPercent = 100)
  ∧ (sideTotal (projectBids n bs) ≤ sideTotal (projectAsks n aks) →
      ∀ lv, (processOrderBook n bs aks).asks.getLast? = some lv →
        lv.depthPercent = 100) := by
  have hd : 0 < bookDivisor n bs aks := bookDivisor_pos n bs aks
  have hbq : ∀ e ∈ projectBids n bs, 0 ≤ e.2 :=
    fun e he => le_of_lt (mem_projectBids he).2
  have haq : ∀ e ∈ projectAsks n aks, 0 ≤ e.2 :=
    fun e he => le_of_lt (mem_projectAsks he).2
  refine ⟨?_, ?_, ?_, ?_⟩
  · intro lv hlv
    have hlv2 : lv ∈ buildLevels (bookDivisor n bs aks) 0 (projectBids n bs) :=
      hlv
    have hform := buildLevels_depthPercent lv hlv2
    have hge : (0 : ℚ) ≤ lv.cumulative := by
      have := le_buildLevels_cumulative hbq lv hlv2
      linarith
    have hlt : lv.cumulative ≤ sideTotal (projectBids n bs) := by
      have := buildLevels_cumulative_le hbq lv hlv2
      linarith
    have hled : lv.cumulative ≤ bookDivisor n bs aks :=
      le_trans hlt (bidTotal_le_bookDivisor n bs aks)
    refine ⟨hform, ?_, ?_⟩
    · rw [hform]
      have h1 := div_nonneg hge hd.le
      linarith
    · rw [hform]
      have h1 : lv.cumulative / bookDivisor n bs aks ≤ 1 :=
        (div_le_one hd).mpr hled
      nlinarith
  · intro lv hlv
    have hlv2 : lv ∈ buildLevels (bookDivisor n bs aks) 0 (projectAsks n aks) :=
      hlv
    have hform := buildLevels_depthPercent lv hlv2
    have hge : (0 : ℚ) ≤ lv.cumulative := by
      have := le_buildLevels_cumulative haq lv hlv2
      linarith
    have hlt : lv.cumulative ≤ sideTotal (projectAsks n aks) := by
      have := buildLevels_cumulative_le haq lv hlv2
      linarith
    have hled : lv.cumulative ≤ bookDivisor n bs aks :=
      le_trans hlt (askTotal_le_bookDivisor n bs aks)
    refine ⟨hform, ?_, ?_⟩
    · rw [hform]
      have h1 := div_nonneg hge hd.le
      linarith
    · rw [hform]
      have h1 : lv.cumulative / bookDivisor n bs aks ≤ 1 :=
        (div_le_one hd).mpr hled
      nlinarith
  · intro hord lv hlast
    have hlast2 : (buildLevels (bookDivisor n bs aks) 0
        (projectBids n bs)).getLast? = some lv := hlast
    have hne : projectBids n bs ≠ [] := by
      intro h0
      rw [h0] at hlast2
      simp [buildLevels] at hlast2
    have hpos : 0 < sideTotal (projectBids n bs) :=
      sideTotal_pos (fun e he => (mem_projectBids he).2) hne
    have hdiv : bookDivisor n bs aks = sideTotal (projectBids n bs) := by
      unfold bookDivisor
      rw [max_eq_left hord]
      exact orFloorOne_eq (ne_of_gt hpos)
    obtain ⟨_, hdp⟩ := buildLevels_getLast hlast2
    rw [hdp, zero_add, hdiv, div_self (ne_of_gt hpos)]
    norm_num
  · intro hord lv hlast
    have hlast2 : (buildLevels (bookDivisor n bs aks) 0
        (projectAsks n aks)).getLast? = some lv := hlast
    have hne : projectAsks n aks ≠ [] := by
      intro h0
      rw [h0] at hlast2
      simp [buildLevels] at hlast2
    have hpos : 0 < sideTotal (projectAsks n aks) :=
      sideTotal_pos (fun e he => (mem_projectAsks he).2) hne
    have hdiv : bookDivisor n bs aks = sideTotal (projectAsks n aks) := by
      unfold bookDivisor
      rw [max_eq_right hord]
      exact orFloorOne_eq (ne_of_gt hpos)
    obtain ⟨_, hdp⟩ := buildLevels_getLast hlast2
    rw [hdp, zero_add, hdiv, div_self (ne_of_gt hpos)]
    norm_num

/-- Claim C2 counterexample: with bid store [(100, 1/2)] and an empty ask
store, the code's divisor is max(1/2, 0) || 1 = 1/2 so the single level's
depthPercent is 100, while the claim's formula
cumulative / max(bidTotal, askTotal, 1) * 100 = (1/2) / 1 * 100 gives
50. -/
theorem depth_percent_spec_formula_false :
    (processOrderBook 10 [(100, 1/2)] []).bids
      = [{ price := 100, quantity := 1/2, total := 50, cumulative := 1/2,
           depthPercent := 100 }]
  ∧ ((1 : ℚ)/2) / max (max ((1 : ℚ)/2) 0) 1 * 100 = 50
  ∧ (100 : ℚ) ≠ 50 := by
  refine ⟨?_, by norm_num, by norm_num⟩
  simp [processOrderBook, projectBids, projectAsks, List.insertionSort,
    List.orderedInsert, sideTotal, orFloorOne, buildLevels, bookDivisor]
  norm_num

theorem scenario_books_eval :
    applyMessage emptyBooks scenarioSnapshot
      = ⟨[(100, 2), (99, 3)], [(101, 1), (102, 4)]⟩ := by
  simp [applyMessage, scenarioSnapshot, loadSide, mapSet]

theorem scenario_view_eval :
    processOrderBook 10 [(100, 2), (99, 3)] [(101, 1), (102, 4)]
      = ⟨[⟨100, 2, 200, 2, 40⟩, ⟨99, 3, 297, 5, 100⟩],
         [⟨101, 1, 101, 1, 20⟩, ⟨102, 4, 408, 5, 100⟩]⟩ := by
  simp [processOrderBook, projectBids, projectAsks, List.insertionSort,
    List.orderedInsert, sideTotal, orFloorOne, buildLevels, bookDivisor,
    bidOrder, askOrder]
  norm_num

theorem scenario_full_view_eval :
    coinbaseBookView 10 (applyMessage emptyBooks scenarioSnapshot)
      = ⟨[⟨100, 2, 200, 2, 40⟩, ⟨99, 3, 297, 5, 100⟩],
         [⟨101, 1, 101, 1, 20⟩, ⟨102, 4, 408, 5, 100⟩]⟩ := by
  rw [scenario_books_eval]
  exact scenario_view_eval

theorem scenario_delete_books :
    applyChange (⟨[(100, 2), (99, 3)], [(101, 1), (102, 4)]⟩ : Books)
        ⟨.buy, 100, 0⟩
      = ⟨[(99, 3)], [(101, 1), (102, 4)]⟩ := by
  simp [applyChange, mapDelete]

theorem scenario_deleted_eval :
    processOrderBook 10 [(99, 3)] [(101, 1), (102, 4)]
      = ⟨[⟨99, 3, 297, 3, 60⟩],
         [⟨101, 1, 101, 1, 20⟩, ⟨102, 4, 408, 5, 100⟩]⟩ := by
  simp [processOrderBook, projectBids, projectAsks, List.insertionSort,
    List.orderedInsert, sideTotal, orFloorOne, buildLevels, bookDivisor,
    bidOrder, askOrder]
  norm_num

/-- Witness for depth_percent_formula_and_bounds: at the spec scenario the
bid side is the (weakly) greater side and its last displayed level has
depthPercent exactly 100. -/
theorem depth_percent_formula_and_bounds_witness :
    ({ price := 99, quantity := 3, total := 297, cumulative := 5,
       depthPercent := 100 } : Level).depthPercent = 100 :=
  (depth_percent_formula_and_bounds 10 [(100, 2), (99, 3)]
      [(101, 1), (102, 4)]).2.2.1
    (by simp [projectBids, projectAsks, List.insertionSort,
          List.orderedInsert, sideTotal, bidOrder, askOrder]
        norm_num)
    _ (by rw [scenario_view_eval]; rfl)

theorem mapLookup_mapDelete (m : List (ℚ × ℚ)) (p : ℚ) :
    mapLookup (mapDelete m p) p = none := by
  have hnone : List.find? (fun e => decide (e.1 = p)) (mapDelete m p)
      = none := by
    rw [List.find?_eq_none]
    intro x hx
    have hx2 := (List.mem_filter.mp hx).2
    simp only [decide_eq_true_eq] at hx2 ⊢
    exact hx2
  unfold mapLookup
  rw [hnone]
  rfl

theorem find?_mapSet_update {m : List (ℚ × ℚ)} {p : ℚ} (q : ℚ)
    (hp : p ∈ m.map Prod.fst) :
    (m.map fun e => if e.1 = p then (p, q) else e).find?
      (fun e => decide (e.1 = p)) = some (p, q) := by
  induction m with
  | nil => simp at hp
  | cons e rest ih =>
      by_cases h1 : e.1 = p
      · simp [List.find?_cons, h1]
      · have hp2 : p ∈ rest.map Prod.fst := by
          rcases List.mem_map.mp hp with ⟨x, hx, hfx⟩
          rcases List.mem_cons.mp hx with rfl | hxr
          · exact absurd hfx h1
          · exact hfx ▸ List.mem_map_of_mem Prod.fst hxr
        simpa [List.find?_cons, h1] using ih hp2

theorem mapLookup_mapSet_self (m : List (ℚ × ℚ)) (p q : ℚ) :
    mapLookup (mapSet m p q) p = some q := by
  unfold mapSet mapLookup
  by_cases hp : p ∈ m.map Prod.fst
  · rw [if_pos hp, find?_mapSet_update q hp]
    rfl
  · rw [if_neg hp, List.find?_append]
    have h1 : m.find? (fun e => decide (e.1 = p)) = none := by
      rw [List.find?_eq_none]
      intro x hx
      simp only [decide_eq_true_eq]
      intro heq
      exact hp (heq ▸ List.mem_map_of_mem Prod.fst hx)
    rw [h1]
    simp [List.find?_cons]

/-- Claim C7: a quantity-0 delta deletes the price from the side store
(a no-op when the price has no entry), a subsequent non-zero delta
restores it with the new quantity, a view derived after the deletion
contains no level at the deleted price (so it contributes to no cumulative
sum), and in the spec scenario deleting the best bid 100 leaves
99/qty 3 as top-of-book with cumulative 3. -/
theorem delta_remove_restore (b : Books) (m : List (ℚ × ℚ)) (p q : ℚ)
    (n : ℕ) (hq : q ≠ 0) :
    (p ∉ m.map Prod.fst → mapDelete m p = m)
  ∧ mapLookup (applyChange b ⟨.buy, p, 0⟩).bids p = none
  ∧ mapLookup (applyChange b ⟨.sell, p, 0⟩).asks p = none
  ∧ mapLookup (applyChange (applyChange b ⟨.buy, p, 0⟩) ⟨.buy, p, q⟩).bids p
      = some q
  ∧ (∀ lv ∈ (coinbaseBookView n (applyChange b ⟨.buy, p, 0⟩)).bids,
      lv.price ≠ p)
  ∧ (coinbaseBookView 10 (applyChange (applyMessage emptyBooks
        scenarioSnapshot) ⟨.buy, 100, 0⟩)).bids
      = [{ price := 99, quantity := 3, total := 297, cumulative := 3,
           depthPercent := 60 }] := by
  have hbuy : applyChange b ⟨.buy, p, 0⟩
      = { b with bids := mapDelete b.bids p } := by
    simp [applyChange]
  have hsell : applyChange b ⟨.sell, p, 0⟩
      = { b with asks := mapDelete b.asks p } := by
    simp [applyChange]
  refine ⟨?_, ?_, ?_, ?_, ?_, ?_⟩
  · intro hp
    apply List.filter_eq_self.mpr
    intro a ha
    simp only [decide_eq_true_eq]
    intro heq
    exact hp (heq ▸ List.mem_map_of_mem Prod.fst ha)
  · rw [hbuy]
    exact mapLookup_mapDelete b.bids p
  · rw [hsell]
    exact mapLookup_mapDelete b.asks p
  · rw [hbuy]
    have hset : applyChange { b with bids := mapDelete b.bids p }
        ⟨.buy, p, q⟩
        = { b with bids := mapSet (mapDelete b.bids p) p q } := by
      simp [applyChange, hq]
    rw [hset]
    exact mapLookup_mapSet_self (mapDelete b.bids p) p q
  · intro lv hlv
    rw [hbuy] at hlv
    have h3 : lv ∈ buildLevels
        (bookDivisor n (mapDelete b.bids p) b.asks) 0
        (projectBids n (mapDelete b.bids p)) := hlv
    have h4 := (mem_projectBids (mem_buildLevels h3)).1
    have h5 := (List.mem_filter.mp h4).2
    simp only [decide_eq_true_eq] at h5
    exact h5
  · rw [scenario_books_eval, scenario_delete_books]
    have hv : coinbaseBookView 10
        (⟨[(99, 3)], [(101, 1), (102, 4)]⟩ : Books)
        = ⟨[⟨99, 3, 297, 3, 60⟩],
           [⟨101, 1, 101, 1, 20⟩, ⟨102, 4, 408, 5, 100⟩]⟩ :=
      scenario_deleted_eval
    rw [hv]

/-- Witness for delta_remove_restore: a one-level book, deleting price 100
then restoring it with quantity 5. -/
theorem delta_remove_restore_witness :
    mapLookup (applyChange ⟨[(100, 2)], []⟩ ⟨.buy, 100, 0⟩).bids 100 = none
  ∧ mapLookup (applyChange (applyChange ⟨[(100, 2)], []⟩ ⟨.buy, 100, 0⟩)
        ⟨.buy, 100, 5⟩).bids 100 = some 5 :=
  ⟨(delta_remove_restore ⟨[(100, 2)], []⟩ [(100, 2)] 100 5 10
      (by norm_num)).2.1,
   (delta_remove_restore ⟨[(100, 2)], []⟩ [(100, 2)] 100 5 10
      (by norm_num)).2.2.2.1⟩

/-- Claim C8: whenever both sides of the view are non-empty the spread is
value = bestAsk.price − bestBid.price and
percent = value / bestAsk.price · 100; when either side is empty the
spread is null; in the spec scenario the top of book is bid 100/qty 2 and
ask 101/qty 1, spread value 1 and percent 100/101 ≈ 0.990 (within
1/1000). -/
theorem spread_formula_and_scenario :
    (∀ (v : OrderBookView) (b a : Level) (tb ta : List Level),
        v.bids = b :: tb → v.asks = a :: ta →
        spread v = some { value := a.price - b.price
                          percent := (a.price - b.price) / a.price * 100 })
  ∧ (∀ v : OrderBookView, v.bids = [] → spread v = none)
  ∧ (∀ v : OrderBookView, v.asks = [] → spread v = none)
  ∧ spread (coinbaseBookView 10 (applyMessage emptyBooks scenarioSnapshot))
      = some { value := 1, percent := 100 / 101 }
  ∧ (coinbaseBookView 10
      (applyMessage emptyBooks scenarioSnapshot)).bids.head?
      = some { price := 100, quantity := 2, total := 200, cumulative := 2,
               depthPercent := 40 }
  ∧ (coinbaseBookView 10
      (applyMessage emptyBooks scenarioSnapshot)).asks.head?
      = some { price := 101, quantity := 1, total := 101, cumulative := 1,
               depthPercent := 20 }
  ∧ (100 : ℚ) / 101 - 99 / 100 < 1 / 1000
  ∧ (0 : ℚ) < 100 / 101 - 99 / 100 := by
  refine ⟨?_, ?_, ?_, ?_, ?_, ?_, by norm_num, by norm_num⟩
  · intro v b a tb ta hb ha
    unfold spread
    rw [hb, ha]
  · intro v hb
    unfold spread
    rw [hb]
  · intro v ha
    unfold spread
    rw [ha]
    cases v.bids <;> rfl
  · rw [scenario_full_view_eval]
    simp [spread]
    norm_num
  · rw [scenario_full_view_eval]
    rfl
  · rw [scenario_full_view_eval]
    rfl

/-- Witness for spread_formula_and_scenario: concrete one-level views with
both sides present, an empty bid side and an empty ask side. -/
theorem spread_formula_and_scenario_witness :
    spread ⟨[⟨100, 2, 200, 2, 40⟩], [⟨101, 1, 101, 1, 20⟩]⟩
      = some { value := (101 : ℚ) - 100,
               percent := ((101 : ℚ) - 100) / 101 * 100 }
  ∧ spread ⟨[], [⟨101, 1, 101, 1, 20⟩]⟩ = none
  ∧ spread ⟨[⟨100, 2, 200, 2, 40⟩], []⟩ = none :=
  ⟨spread_formula_and_scenario.1 _ _ _ _ _ rfl rfl,
   spread_formula_and_scenario.2.1 _ rfl,
   spread_formula_and_scenario.2.2.1 _ rfl⟩

end EthTicker
